import Mathlib

/-!
Shallow embedding of the trading strategy in `src/strategy.py`
(`AdvancedTradingStrategy`) together with proofs about the claims of the
specification.

Modelling conventions:
* Prices, volumes and indicator values are rationals (`ℚ`), standing for the
  real-number arithmetic of the source.
* Each data line (`open`, `high`, `low`, `close`, `volume`) and each
  per-bar indicator line (`avg_volume`, `atr`) is a list of rationals indexed
  by bar position `0 .. len-1`, following the data model of the
  specification (section 3).  An index access uses Python list semantics:
  a negative index `i` with `-len ≤ i` wraps around to `len + i`, and any
  other out-of-range access raises `IndexError`.
* A raised `IndexError` is modelled by `Except.error ()`; a normal return is
  `Except.ok`.  Python `and` short-circuits, which matters for where an
  exception can be raised; the definitions below reproduce the exact
  evaluation order of the source.
* A Python function that can return `None` as an ordinary value (for example
  `calculate_take_profit` falls off the end for an unknown direction) returns
  an `Option` in the success position; `none` there is the value `None`, not
  an exception.
* The current bar carries a calendar `date` (an integer day number) and a
  `localTime`, the time of day in seconds after the conversion of the
  timestamp to the Europe/Oslo calendar performed by
  `is_within_trading_hours` (the `pytz` conversion itself is an external
  collaborator and is treated as already applied).
* The momentum checks of the source read the indicator values of the current
  bar (`self.rsi < 30` evaluates `rsi[0] < 30` inside `next`), so `rsi` and
  `percK` are single current values on the series.
-/

set_option maxHeartbeats 1000000

namespace TradingBot

/-- Result of running a piece of Python code that can raise `IndexError`:
`Except.error ()` is a raised exception, `Except.ok` a normal return. -/
abbrev PyResult (α : Type) := Except Unit α

/-- Strategy parameters, from the `params` tuple of `AdvancedTradingStrategy`.
Times of day are in seconds since midnight (the source parses strings such as
`'08:00'` into `datetime.time` values; comparison order is unchanged). -/
structure Params where
  rr_ratio : ℚ
  rsi_period : ℕ
  volume_threshold : ℚ
  fvg_threshold : ℚ
  engulfing_lookback : ℕ
  stop_loss_buffer : ℚ
  trade_start_time : ℕ
  trade_end_time : ℕ
  use_atr : Bool
  atr_period : ℕ
  atr_multiplier : ℚ
deriving DecidableEq

/-- The default parameter values of the source. -/
def defaultParams : Params where
  rr_ratio := 3
  rsi_period := 14
  volume_threshold := 1.5
  fvg_threshold := 0.5
  engulfing_lookback := 2
  stop_loss_buffer := 0.995
  trade_start_time := 28800
  trade_end_time := 79200
  use_atr := false
  atr_period := 14
  atr_multiplier := 2

/-- Python list indexing `xs[i]`: a nonnegative index must be `< len`,
a negative index `i ≥ -len` wraps to `len + i`, anything else raises
`IndexError`. -/
def pyGet (xs : List ℚ) (i : ℤ) : PyResult ℚ :=
  if 0 ≤ i then
    match xs.get? i.toNat with
    | some v => .ok v
    | none => .error ()
  else if 0 ≤ (xs.length : ℤ) + i then
    match xs.get? ((xs.length : ℤ) + i).toNat with
    | some v => .ok v
    | none => .error ()
  else .error ()

/-- The bar series and indicator feed visible to the strategy at one call of
`next`: the per-bar data lines, the per-bar indicator lines, the
current-bar momentum values and the current bar timestamp fields. -/
structure Series where
  opens : List ℚ
  highs : List ℚ
  lows : List ℚ
  closes : List ℚ
  volumes : List ℚ
  avg_volume : List ℚ
  atr : List ℚ
  rsi : ℚ
  percK : ℚ
  date : ℤ
  localTime : ℕ
deriving DecidableEq

/-- Number of bars, `len(self.data)`. -/
def Series.len (s : Series) : ℕ := s.closes.length

/-- All data and indicator lines have the same length as the bar series. -/
def Series.Wf (s : Series) : Prop :=
  s.opens.length = s.len ∧ s.highs.length = s.len ∧ s.lows.length = s.len ∧
  s.volumes.length = s.len ∧ s.avg_volume.length = s.len ∧ s.atr.length = s.len

instance (s : Series) : Decidable s.Wf := by
  unfold Series.Wf
  infer_instance

/-- `is_demand_zone` of the source: a swing low (strict on both sides) with
volume above `avg_volume * volume_threshold`.  The two `and`-chained
conditions short-circuit exactly as in Python, so `low[index + 1]` is read
only when `low[index] < low[index - 1]` holds. -/
def is_demand_zone (p : Params) (s : Series) (index : ℤ) : PyResult Bool :=
  match pyGet s.lows index, pyGet s.lows (index - 1) with
  | .ok l0, .ok lm =>
    if l0 < lm then
      match pyGet s.lows (index + 1) with
      | .ok lp =>
        if l0 < lp then
          match pyGet s.volumes index, pyGet s.avg_volume index with
          | .ok v, .ok av => if v > av * p.volume_threshold then .ok true else .ok false
          | _, _ => .error ()
        else .ok false
      | .error _ => .error ()
    else .ok false
  | _, _ => .error ()

/-- `is_supply_zone` of the source: the symmetric swing high condition. -/
def is_supply_zone (p : Params) (s : Series) (index : ℤ) : PyResult Bool :=
  match pyGet s.highs index, pyGet s.highs (index - 1) with
  | .ok h0, .ok hm =>
    if h0 > hm then
      match pyGet s.highs (index + 1) with
      | .ok hp =>
        if h0 > hp then
          match pyGet s.volumes index, pyGet s.avg_volume index with
          | .ok v, .ok av => if v > av * p.volume_threshold then .ok true else .ok false
          | _, _ => .error ()
        else .ok false
      | .error _ => .error ()
    else .ok false
  | _, _ => .error ()

/-- `is_fair_value_gap` of the source: absolute gap between the close and the
previous open above `fvg_threshold`. -/
def is_fair_value_gap (p : Params) (s : Series) (index : ℤ) : PyResult Bool :=
  match pyGet s.closes index, pyGet s.opens (index - 1) with
  | .ok c, .ok om => if |c - om| > p.fvg_threshold then .ok true else .ok false
  | _, _ => .error ()

/-- `is_engulfing_pattern` of the source: returns `'bullish'`, `'bearish'` or
`None`.  When the bullish test `close[index] > open[index-1]` succeeds but the
second bullish conjunct fails, the `elif` retests `close[index] <
open[index-1]`, which is then false, giving `None`; the branch structure below
reproduces that. -/
def is_engulfing_pattern (s : Series) (index : ℤ) : PyResult (Option String) :=
  match pyGet s.closes index, pyGet s.opens (index - 1) with
  | .ok c, .ok om =>
    if c > om then
      match pyGet s.opens index, pyGet s.closes (index - 1) with
      | .ok o, .ok cm => if o < cm then .ok (some "bullish") else .ok none
      | _, _ => .error ()
    else if c < om then
      match pyGet s.opens index, pyGet s.closes (index - 1) with
      | .ok o, .ok cm => if o > cm then .ok (some "bearish") else .ok none
      | _, _ => .error ()
    else .ok none
  | _, _ => .error ()

/-- `is_within_trading_hours` of the source, applied to the already-converted
Europe/Oslo time of day: the chained comparison
`start_time <= current_time <= end_time` is inclusive on both ends. -/
def is_within_trading_hours (p : Params) (current_time : ℕ) : Bool :=
  decide (p.trade_start_time ≤ current_time) && decide (current_time ≤ p.trade_end_time)

/-- `is_bullish_momentum` of the source, on the current-bar indicator
values. -/
def is_bullish_momentum (s : Series) : Bool :=
  decide (s.rsi < 30) && decide (s.percK < 20)

/-- `is_bearish_momentum` of the source, on the current-bar indicator
values. -/
def is_bearish_momentum (s : Series) : Bool :=
  decide (s.rsi > 70) && decide (s.percK > 80)

/-- Python `range(a, b)` as a list of integer indices. -/
def pyRange (a b : ℕ) : List ℤ :=
  List.map (fun n : ℕ => (n : ℤ)) (List.range' a (b - a))

/-- The body of the `for i in range(len(self.data))` loop of
`calculate_stop_loss` for the `'long'` direction: stop at the first index
that is a demand zone whose low is below the entry price.  Python `and`
short-circuits, so `low[i]` is re-read only after `is_demand_zone(i)`
returned `True`. -/
def slScanLong (p : Params) (s : Series) (entry_price : ℚ) : List ℤ → PyResult (Option ℚ)
  | [] => .ok none
  | i :: rest =>
    match is_demand_zone p s i with
    | .error e => .error e
    | .ok true =>
      match pyGet s.lows i with
      | .error e => .error e
      | .ok v =>
        if v < entry_price then .ok (some (v * p.stop_loss_buffer))
        else slScanLong p s entry_price rest
    | .ok false => slScanLong p s entry_price rest

/-- The loop of `calculate_stop_loss` for the `'short'` direction. -/
def slScanShort (p : Params) (s : Series) (entry_price : ℚ) : List ℤ → PyResult (Option ℚ)
  | [] => .ok none
  | i :: rest =>
    match is_supply_zone p s i with
    | .error e => .error e
    | .ok true =>
      match pyGet s.highs i with
      | .error e => .error e
      | .ok v =>
        if v > entry_price then .ok (some (v * (2 - p.stop_loss_buffer)))
        else slScanShort p s entry_price rest
    | .ok false => slScanShort p s entry_price rest

/-- `calculate_stop_loss` of the source.  After an unsuccessful scan (and for
any direction other than `'long'`/`'short'`, without any scan) the final line
`entry_price * 0.98 if direction == 'long' else entry_price * 1.02` is
executed. -/
def calculate_stop_loss (p : Params) (s : Series) (entry_price : ℚ)
    (direction : String) : PyResult ℚ :=
  if direction = "long" then
    match slScanLong p s entry_price (pyRange 0 s.len) with
    | .error e => .error e
    | .ok (some r) => .ok r
    | .ok none => .ok (entry_price * 0.98)
  else if direction = "short" then
    match slScanShort p s entry_price (pyRange 0 s.len) with
    | .error e => .error e
    | .ok (some r) => .ok r
    | .ok none => .ok (entry_price * 1.02)
  else .ok (entry_price * 1.02)

/-- `calculate_take_profit` of the source; for a direction other than
`'long'`/`'short'` the Python function falls off the end and returns `None`,
modelled by `none`. -/
def calculate_take_profit (p : Params) (entry_price stop_loss : ℚ)
    (direction : String) : Option ℚ :=
  if direction = "long" then
    some (entry_price + (entry_price - stop_loss) * p.rr_ratio)
  else if direction = "short" then
    some (entry_price - (stop_loss - entry_price) * p.rr_ratio)
  else none

/-- `calculate_atr_stop_loss` of the source. -/
def calculate_atr_stop_loss (p : Params) (entry_price : ℚ) (direction : String)
    (atr_value : ℚ) : Option ℚ :=
  if direction = "long" then some (entry_price - atr_value * p.atr_multiplier)
  else if direction = "short" then some (entry_price + atr_value * p.atr_multiplier)
  else none

/-- `calculate_atr_take_profit` of the source. -/
def calculate_atr_take_profit (p : Params) (entry_price : ℚ) (direction : String)
    (atr_value : ℚ) : Option ℚ :=
  if direction = "long" then
    some (entry_price + atr_value * p.atr_multiplier * p.rr_ratio)
  else if direction = "short" then
    some (entry_price - atr_value * p.atr_multiplier * p.rr_ratio)
  else none

/-- A Trade Intent: the record of the orders placed by `enter_trade`
(direction, entry, protective stop, target, triggering bar index).  The stop
and target are `Option`s because the Python helpers can return `None`. -/
structure TradeIntent where
  direction : String
  entry_price : ℚ
  stop_loss : Option ℚ
  take_profit : Option ℚ
  index : ℤ
deriving DecidableEq

/-- The order-placement tail of `enter_trade`: the `if direction == 'long'`
/ `elif direction == 'short'` branches place the orders (modelled as emitting
the intent); any other direction places nothing. -/
def mkIntent (direction : String) (entry_price : ℚ) (stop_loss take_profit : Option ℚ)
    (index : ℤ) : PyResult (Option TradeIntent) :=
  if direction = "long" then
    .ok (some ⟨direction, entry_price, stop_loss, take_profit, index⟩)
  else if direction = "short" then
    .ok (some ⟨direction, entry_price, stop_loss, take_profit, index⟩)
  else .ok none

/-- `enter_trade` of the source: reads the entry price, computes stop and
target in the configured mode, then places the orders. -/
def enter_trade (p : Params) (s : Series) (direction : String) (index : ℤ) :
    PyResult (Option TradeIntent) :=
  match pyGet s.closes index with
  | .error e => .error e
  | .ok entry_price =>
    if p.use_atr then
      match pyGet s.atr index with
      | .error e => .error e
      | .ok atr_value =>
        mkIntent direction entry_price
          (calculate_atr_stop_loss p entry_price direction atr_value)
          (calculate_atr_take_profit p entry_price direction atr_value) index
    else
      match calculate_stop_loss p s entry_price direction with
      | .error e => .error e
      | .ok stop_loss =>
        mkIntent direction entry_price (some stop_loss)
          (calculate_take_profit p entry_price stop_loss direction) index

/-- The entry-condition test of one iteration of the scan loop in `next`:
`is_engulfing_pattern(i)` is computed once, then the two `and`-chains are
evaluated with Python short-circuiting (the zone query runs only when the
engulfing type matches, the fair-value-gap query only after the momentum
check).  Returns the direction to enter, or `none` when neither branch
fires. -/
def signal_at (p : Params) (s : Series) (i : ℤ) : PyResult (Option String) :=
  match is_engulfing_pattern s i with
  | .error e => .error e
  | .ok engulfing_type =>
    if engulfing_type = some "bullish" then
      match is_demand_zone p s i with
      | .error e => .error e
      | .ok dz =>
        if dz then
          if is_bullish_momentum s then
            match is_fair_value_gap p s i with
            | .error e => .error e
            | .ok fvg => if fvg then .ok (some "long") else .ok none
          else .ok none
        else .ok none
    else if engulfing_type = some "bearish" then
      match is_supply_zone p s i with
      | .error e => .error e
      | .ok sz =>
        if sz then
          if is_bearish_momentum s then
            match is_fair_value_gap p s i with
            | .error e => .error e
            | .ok fvg => if fvg then .ok (some "short") else .ok none
          else .ok none
        else .ok none
    else .ok none

/-- The scan loop of `next`: first index whose entry condition fires, with
its direction; the loop `break`s there. -/
def scanLoop (p : Params) (s : Series) : List ℤ → PyResult (Option (String × ℤ))
  | [] => .ok none
  | i :: rest =>
    match signal_at p s i with
    | .error e => .error e
    | .ok (some dir) => .ok (some (dir, i))
    | .ok none => scanLoop p s rest

/-- The mutable strategy state: `self.last_trade_date`. -/
structure StratState where
  last_trade_date : Option ℤ
deriving DecidableEq

/-- `next` of the source, as a transition on the strategy state.  The two
early `return`s (outside trading hours; already traded today) appear as the
outer conditionals.  The scan runs over `range(engulfing_lookback,
len(self.data) - 1)`; on a hit, `enter_trade` runs first and
`last_trade_date` is assigned afterwards, so a raised `IndexError` inside
`enter_trade` leaves the state unchanged (the exception propagates,
modelled by `.error`). -/
def next (p : Params) (s : Series) (st : StratState) :
    PyResult (Option TradeIntent × StratState) :=
  if is_within_trading_hours p s.localTime = true then
    if st.last_trade_date = some s.date then .ok (none, st)
    else
      match scanLoop p s (pyRange p.engulfing_lookback (s.len - 1)) with
      | .error e => .error e
      | .ok none => .ok (none, st)
      | .ok (some (dir, i)) =>
        match enter_trade p s dir i with
        | .error e => .error e
        | .ok r => .ok (r, ⟨some s.date⟩)
  else .ok (none, st)

/-- Repeated invocation of `next` on successive bars, as the backtest engine
does, collecting the emitted intent (or `none`) of each call.  An exception
raised by a call aborts the run. -/
def runBars (p : Params) : StratState → List Series →
    PyResult (List (Option TradeIntent) × StratState)
  | st, [] => .ok ([], st)
  | st, b :: bs =>
    match next p b st with
    | .error e => .error e
    | .ok (o, st1) =>
      match runBars p st1 bs with
      | .error e => .error e
      | .ok (os, stF) => .ok (o :: os, stF)

/-- The four entry predicates of the specification for a long entry at index
`i`, stated declaratively: bullish engulfing, demand zone, bullish momentum,
fair-value gap. -/
def LongSignal (p : Params) (s : Series) (i : ℤ) : Prop :=
  is_engulfing_pattern s i = .ok (some "bullish") ∧
  is_demand_zone p s i = .ok true ∧
  is_bullish_momentum s = true ∧
  is_fair_value_gap p s i = .ok true

/-- The four entry predicates of the specification for a short entry at
index `i`. -/
def ShortSignal (p : Params) (s : Series) (i : ℤ) : Prop :=
  is_engulfing_pattern s i = .ok (some "bearish") ∧
  is_supply_zone p s i = .ok true ∧
  is_bearish_momentum s = true ∧
  is_fair_value_gap p s i = .ok true

/-- The bullish-engulfing condition tested by `is_engulfing_pattern`, on the
four prices it reads (`close[i]`, `open[i-1]`, `open[i]`, `close[i-1]`). -/
def bullish_engulf_test (c om o cm : ℚ) : Bool :=
  decide (c > om) && decide (o < cm)

/-- The bearish-engulfing condition tested by `is_engulfing_pattern`. -/
def bearish_engulf_test (c om o cm : ℚ) : Bool :=
  decide (c < om) && decide (o > cm)

/-- Variant of `is_engulfing_pattern` that tests the bearish branch before
the bullish branch, used to show the branch order is immaterial. -/
def is_engulfing_pattern_swapped (s : Series) (index : ℤ) : PyResult (Option String) :=
  match pyGet s.closes index, pyGet s.opens (index - 1) with
  | .ok c, .ok om =>
    if c < om then
      match pyGet s.opens index, pyGet s.closes (index - 1) with
      | .ok o, .ok cm => if o > cm then .ok (some "bearish") else .ok none
      | _, _ => .error ()
    else if c > om then
      match pyGet s.opens index, pyGet s.closes (index - 1) with
      | .ok o, .ok cm => if o < cm then .ok (some "bullish") else .ok none
      | _, _ => .error ()
    else .ok none
  | _, _ => .error ()

/-! ### Concrete inputs used by witnesses and counterexamples -/

/-- A five-bar series on which `next` emits a long trade at index 2:
bullish engulfing, demand zone, bullish momentum and a fair-value gap all
hold there, and the stop-loss scan finds the demand zone at index 2 below
the entry. -/
def sEmit : Series :=
  ⟨[1, 2, 3, 4, 5], [20, 20, 20, 20, 20], [5, 6, 1, 4, 5], [1, 9, 10, 4, 5],
   [10, 10, 100, 10, 10], [10, 10, 10, 10, 10], [1, 1, 1, 1, 1],
   25, 10, 100, 36000⟩

/-- The trade intent emitted by `next` on `sEmit`. -/
def tEmit : TradeIntent := ⟨"long", 10, some 0.995, some 37.015, 2⟩

/-- Like `sEmit`, but the matching bar closes on its low (so the demand zone
at index 2 is not strictly below the entry) and the last bar makes a new low,
so the stop-loss scan reaches the end of the series and raises. -/
def sCrash : Series :=
  ⟨[1, 0.2, 0.3, 4, 5], [20, 20, 20, 20, 20], [5, 6, 1, 4, 0.5], [1, 9, 1, 4, 5],
   [10, 10, 100, 10, 10], [10, 10, 10, 10, 10], [1, 1, 1, 1, 1],
   25, 10, 100, 36000⟩

/-- A two-bar series whose last bar makes a new low: the zone query at the
last index reads one past the end. -/
def sTwo : Series :=
  ⟨[1, 1], [1, 1], [5, 3], [1, 1], [1, 1], [1, 1], [1, 1], 0, 0, 0, 0⟩

/-- A three-bar series with strictly decreasing lows and no demand zone:
the stop-loss scan reaches the last index and raises there. -/
def sDecr : Series :=
  ⟨[1, 1, 1], [1, 1, 1], [3, 2, 1], [1, 1, 1], [1, 1, 1], [1, 1, 1], [1, 1, 1],
   0, 0, 0, 0⟩

/-! ### Access lemmas -/

theorem pyGet_coe (xs : List ℚ) (i : ℕ) (h : i < xs.length) :
    pyGet xs (i : ℤ) = .ok (xs.getD i 0) := by
  unfold pyGet
  rw [if_pos (Int.natCast_nonneg i), Int.toNat_natCast,
    List.get?_eq_getElem?, List.getElem?_eq_getElem h, List.getD_eq_getElem _ _ h]

theorem pyGet_ok_of_lt (xs : List ℚ) (i : ℤ) (h1 : -(xs.length : ℤ) ≤ i)
    (h2 : i < (xs.length : ℤ)) : ∃ v, pyGet xs i = .ok v := by
  unfold pyGet
  by_cases h0 : 0 ≤ i
  · rw [if_pos h0]
    have hlt : i.toNat < xs.length := by omega
    rw [List.get?_eq_getElem?, List.getElem?_eq_getElem hlt]
    exact ⟨_, rfl⟩
  · rw [if_neg h0, if_pos (by omega)]
    have hlt : ((xs.length : ℤ) + i).toNat < xs.length := by omega
    rw [List.get?_eq_getElem?, List.getElem?_eq_getElem hlt]
    exact ⟨_, rfl⟩

theorem pyGet_mem (xs : List ℚ) (i : ℤ) (v : ℚ) (h : pyGet xs i = .ok v) :
    v ∈ xs := by
  unfold pyGet at h
  split at h
  · cases hg : xs.get? i.toNat with
    | none => rw [hg] at h; exact absurd h (by simp)
    | some w =>
      rw [hg] at h
      cases h
      exact List.get?_mem hg
  · split at h
    · cases hg : xs.get? ((xs.length : ℤ) + i).toNat with
      | none => rw [hg] at h; exact absurd h (by simp)
      | some w =>
        rw [hg] at h
        cases h
        exact List.get?_mem hg
    · exact absurd h (by simp)

theorem pyGet_err_of_ge (xs : List ℚ) (i : ℤ) (h : (xs.length : ℤ) ≤ i) :
    pyGet xs i = .error () := by
  unfold pyGet
  rw [if_pos (by omega), List.get?_eq_getElem?, List.getElem?_eq_none (by omega)]

theorem mem_pyRange (a b : ℕ) (i : ℤ) :
    i ∈ pyRange a b ↔ (a : ℤ) ≤ i ∧ i < (b : ℤ) := by
  unfold pyRange
  rw [List.mem_map]
  constructor
  · rintro ⟨n, hn, rfl⟩
    obtain ⟨k, hk, rfl⟩ := List.mem_range'.mp hn
    omega
  · rintro ⟨h1, h2⟩
    exact ⟨i.toNat, List.mem_range'.mpr ⟨i.toNat - a, by omega, by omega⟩, by omega⟩

theorem pyRange_pairwise (a b : ℕ) : List.Pairwise (· < ·) (pyRange a b) := by
  unfold pyRange
  exact List.Pairwise.map (fun n : ℕ => (n : ℤ))
    (fun m n h => by simpa using Int.ofNat_lt.mpr h) (List.pairwise_lt_range' a (b - a))

/-! ### Basic facts about `next` -/

theorem next_blocked (p : Params) (s : Series) (st : StratState)
    (h : st.last_trade_date = some s.date) : next p s st = .ok (none, st) := by
  unfold next
  by_cases hg : is_within_trading_hours p s.localTime = true
  · rw [if_pos hg, if_pos h]
  · rw [if_neg hg]

theorem next_cases (p : Params) (s : Series) (st : StratState)
    (o : Option TradeIntent) (st1 : StratState)
    (h : next p s st = .ok (o, st1)) :
    (o = none ∧ st1 = st) ∨ st1 = ⟨some s.date⟩ := by
  unfold next at h
  split at h
  · split at h
    · simp only [Except.ok.injEq, Prod.mk.injEq] at h
      exact Or.inl ⟨h.1.symm, h.2.symm⟩
    · split at h
      · exact absurd h (by simp)
      · simp only [Except.ok.injEq, Prod.mk.injEq] at h
        exact Or.inl ⟨h.1.symm, h.2.symm⟩
      · split at h
        · exact absurd h (by simp)
        · simp only [Except.ok.injEq, Prod.mk.injEq] at h
          exact Or.inr h.2.symm
  · simp only [Except.ok.injEq, Prod.mk.injEq] at h
    exact Or.inl ⟨h.1.symm, h.2.symm⟩

theorem runBars_no_repeat (p : Params) (d : ℤ) :
    ∀ (bs : List Series) (st : StratState) (e : ℤ)
      (outs : List (Option TradeIntent)) (stF : StratState),
      st.last_trade_date = some e → d ≤ e →
      (∀ b ∈ bs, b.date = d → e ≤ d) →
      List.Pairwise (· ≤ ·) (bs.map Series.date) →
      (∀ b ∈ bs, d ≤ b.date) →
      runBars p st bs = .ok (outs, stF) →
      ∀ pr ∈ bs.zip outs, pr.1.date = d → pr.2 = none := by
  intro bs
  induction bs with
  | nil =>
    intro st e outs stF _ _ _ _ _ _ pr hpr
    simp at hpr
  | cons b t ih =>
    intro st e outs stF hst hde hbound hpw hge hrun pr hpr hprd
    unfold runBars at hrun
    rcases hnx : next p b st with he | ⟨o, st1⟩
    · simp only [hnx] at hrun
      exact Except.noConfusion hrun
    simp only [hnx] at hrun
    rcases hrt : runBars p st1 t with he | ⟨os, stG⟩
    · simp only [hrt] at hrun
      exact Except.noConfusion hrun
    simp only [hrt] at hrun
    simp only [Except.ok.injEq, Prod.mk.injEq] at hrun
    obtain ⟨houts, -⟩ := hrun
    subst houts
    rw [List.map_cons, List.pairwise_cons] at hpw
    obtain ⟨hpwhead, hpwtail⟩ := hpw
    rw [List.zip_cons_cons] at hpr
    rcases List.mem_cons.mp hpr with rfl | hmem
    · -- the head pair: this bar has date d, so the gate must have blocked
      have hed : e = d := le_antisymm (hbound b (by simp) hprd) hde
      have hblocked : next p b st = .ok (none, st) :=
        next_blocked p b st (by rw [hst, hed, hprd])
      rw [hblocked] at hnx
      simp only [Except.ok.injEq, Prod.mk.injEq] at hnx
      exact hnx.1.symm
    · -- a later pair: re-establish the invariant for the tail
      by_cases hbd : b.date = d
      · have hed : e = d := le_antisymm (hbound b (by simp) hbd) hde
        have hblocked : next p b st = .ok (none, st) :=
          next_blocked p b st (by rw [hst, hed, hbd])
        rw [hblocked] at hnx
        simp only [Except.ok.injEq, Prod.mk.injEq] at hnx
        refine ih st e os stG ?_ hde ?_ hpwtail ?_ ?_ pr hmem hprd
        · exact hst
        · intro c hc hcd; exact hbound c (by simp [hc]) hcd
        · intro c hc; exact hge c (by simp [hc])
        · rw [hnx.2]; exact hrt
      · rcases next_cases p b st o st1 hnx with ⟨-, hst1⟩ | hst1
        · rw [hst1] at hrt
          refine ih st e os stG hst hde ?_ hpwtail ?_ hrt pr hmem hprd
          · intro c hc hcd; exact hbound c (by simp [hc]) hcd
          · intro c hc; exact hge c (by simp [hc])
        · rw [hst1] at hrt
          refine ih _ b.date os stG rfl (hge b (by simp)) ?_ hpwtail ?_ hrt pr hmem hprd
          · intro c hc hcd
            rw [← hcd]
            exact hpwhead c.date (List.mem_map_of_mem Series.date hc)
          · intro c hc; exact hge c (by simp [hc])

/-! ### C1 -/

/-- C1: in a run that processes bars in timestamp order (so with
nondecreasing calendar dates), once `next` emits a trade intent on a bar of
date `d` — which sets `last_trade_date` to `d` — no later invocation of
`next` on a bar of the same date `d` emits another trade intent. -/
theorem one_trade_per_calendar_day (p : Params) (s : Series) (st st1 : StratState)
    (t : TradeIntent) (bs : List Series) (outs : List (Option TradeIntent))
    (stF : StratState) (d : ℤ)
    (hd : s.date = d)
    (hemit : next p s st = .ok (some t, st1))
    (hmono : List.Pairwise (· ≤ ·) ((s :: bs).map Series.date))
    (hrun : runBars p st1 bs = .ok (outs, stF)) :
    ∀ pr ∈ bs.zip outs, pr.1.date = d → pr.2 = none := by
  have hst1 : st1 = ⟨some s.date⟩ := by
    rcases next_cases p s st (some t) st1 hemit with ⟨h, -⟩ | h
    · exact Option.noConfusion h
    · exact h
  rw [List.map_cons, List.pairwise_cons] at hmono
  obtain ⟨hhead, htail⟩ := hmono
  refine runBars_no_repeat p d bs st1 d outs stF ?_ le_rfl ?_ htail ?_ hrun
  · rw [hst1, hd]
  · intro b hb hbd
    exact le_rfl
  · intro b hb
    rw [← hd]
    exact hhead b.date (List.mem_map_of_mem Series.date hb)

/-- Witness for C1 at a concrete run: `next` emits `tEmit` on `sEmit`
(date 100), and a second bar of the same date produces no intent. -/
theorem one_trade_per_calendar_day_witness :
    ((sEmit, (none : Option TradeIntent)).2 = none) :=
  one_trade_per_calendar_day defaultParams sEmit ⟨none⟩ ⟨some 100⟩ tEmit [sEmit]
    [none] ⟨some 100⟩ 100 rfl (by with_unfolding_all rfl) (by decide)
    (by with_unfolding_all rfl) (sEmit, none) (by simp) rfl

/-! ### C9 -/

/-- C9: the Session Gate admits a bar exactly when its Europe/Oslo
time-of-day lies in the inclusive window `[trade_start_time,
trade_end_time]`; times strictly before the start or strictly after the end
are rejected, and both boundaries are admitted. -/
theorem session_window_inclusive (p : Params) (t : ℕ)
    (hse : p.trade_start_time ≤ p.trade_end_time) :
    (is_within_trading_hours p t = true ↔
      p.trade_start_time ≤ t ∧ t ≤ p.trade_end_time) ∧
    (t < p.trade_start_time → is_within_trading_hours p t = false) ∧
    (p.trade_end_time < t → is_within_trading_hours p t = false) ∧
    is_within_trading_hours p p.trade_start_time = true ∧
    is_within_trading_hours p p.trade_end_time = true := by
  unfold is_within_trading_hours
  refine ⟨by simp,
    fun h => ?_, fun h => ?_,
    by simp only [Bool.and_eq_true, decide_eq_true_eq]; exact ⟨le_rfl, hse⟩,
    by simp only [Bool.and_eq_true, decide_eq_true_eq]; exact ⟨hse, le_rfl⟩⟩
  · simp only [Bool.and_eq_false_iff, decide_eq_false_iff_not]
    exact Or.inl (by omega)
  · simp only [Bool.and_eq_false_iff, decide_eq_false_iff_not]
    exact Or.inr (by omega)

/-- Witness for C9: the default session start 08:00 (28800 s) is itself
admitted. -/
theorem session_window_inclusive_witness :
    is_within_trading_hours defaultParams 28800 = true :=
  (session_window_inclusive defaultParams 28800 (by decide)).2.2.2.1

/-! ### C10 -/

/-- C10: the bullish and bearish engulfing conditions can never hold
together, and consequently testing the bearish branch before the bullish
branch leaves the classifier unchanged on every input. -/
theorem engulfing_branch_order_independent :
    (∀ c om o cm : ℚ,
      (bullish_engulf_test c om o cm && bearish_engulf_test c om o cm) = false) ∧
    ∀ (s : Series) (i : ℤ),
      is_engulfing_pattern_swapped s i = is_engulfing_pattern s i := by
  constructor
  · intro c om o cm
    unfold bullish_engulf_test bearish_engulf_test
    by_cases h1 : c > om
    · have h2 : ¬c < om := not_lt_of_gt h1
      simp [h2]
    · simp [h1]
  · intro s i
    unfold is_engulfing_pattern_swapped is_engulfing_pattern
    cases hc : pyGet s.closes i with
    | error e => rfl
    | ok c =>
      cases ho : pyGet s.opens (i - 1) with
      | error e => rfl
      | ok om =>
        dsimp only
        rcases lt_trichotomy c om with h | h | h
        · rw [if_pos h, if_neg (lt_asymm h), if_pos h]
        · subst h
          simp [lt_irrefl c]
        · rw [if_neg (lt_asymm h), if_pos h, if_pos h]

/-! ### C3 -/

/-- C3 counterexample: a Risk Calculator call with the invalid direction
string `"sideways"` does not fail with an InvalidDirection error;
`calculate_stop_loss` returns the ordinary value `entry * 1.02 = 102`. -/
theorem invalid_direction_counterexample :
    calculate_stop_loss defaultParams sTwo 100 "sideways" = .ok 102 := by
  with_unfolding_all rfl

/-- C3 amended: a direction outside long/short raises nothing:
`calculate_stop_loss` silently returns the short-direction fallback
`entry * 1.02` without scanning any zone, and the other three Risk
Calculator functions return `None`. -/
theorem invalid_direction_amended (p : Params) (s : Series) (e sl a : ℚ)
    (direction : String) (hL : direction ≠ "long") (hS : direction ≠ "short") :
    calculate_stop_loss p s e direction = .ok (e * 1.02) ∧
    calculate_take_profit p e sl direction = none ∧
    calculate_atr_stop_loss p e direction a = none ∧
    calculate_atr_take_profit p e direction a = none := by
  unfold calculate_stop_loss calculate_take_profit calculate_atr_stop_loss
    calculate_atr_take_profit
  simp [hL, hS]

/-- Witness for C3 amended at the invalid direction `"hold"`. -/
theorem invalid_direction_amended_witness :
    calculate_take_profit defaultParams 100 98 "hold" = none :=
  (invalid_direction_amended defaultParams sTwo 100 98 0 "hold" (by decide)
    (by decide)).2.1

/-! ### C4 -/

/-- C4 counterexample: for entry 100 and stop 102 (a stop above the entry)
with direction long, the code returns 94, while the claimed formula
`entry + rr_ratio * |entry - stop|` gives 106. -/
theorem take_profit_formula_counterexample :
    calculate_take_profit defaultParams 100 102 "long" = some 94 ∧
    100 + defaultParams.rr_ratio * |(100 : ℚ) - 102| = 106 ∧
    (94 : ℚ) ≠ 106 := by
  refine ⟨by with_unfolding_all rfl, ?_, by norm_num⟩
  rw [show (100 : ℚ) - 102 = -2 by norm_num, abs_neg, abs_two]
  norm_num [defaultParams]

/-- C4 amended: for both valid directions, the take-profit distance from the
entry equals `rr_ratio * |entry - stop_loss|` and the take-profit lies
strictly on the opposite side of the entry from the stop-loss whenever the
two differ; the claimed formulas `entry + distance` (long) and
`entry - distance` (short) hold exactly when the stop-loss is on its proper
side of the entry — the code applies the signed distance, so a long stop
above the entry sends the take-profit below the entry. -/
theorem take_profit_relation_amended (p : Params) (e sl tp : ℚ) (direction : String)
    (hrr : 0 < p.rr_ratio)
    (hdir : direction = "long" ∨ direction = "short")
    (htp : calculate_take_profit p e sl direction = some tp) :
    |tp - e| = p.rr_ratio * |e - sl| ∧
    (sl < e → e < tp) ∧ (e < sl → tp < e) ∧
    (direction = "long" → sl ≤ e → tp = e + p.rr_ratio * |e - sl|) ∧
    (direction = "short" → e ≤ sl → tp = e - p.rr_ratio * |e - sl|) := by
  rcases hdir with rfl | rfl
  · unfold calculate_take_profit at htp
    rw [if_pos rfl] at htp
    injection htp with htp
    subst htp
    refine ⟨?_, fun h => ?_, fun h => ?_, fun _ h => ?_, fun h => absurd h (by decide)⟩
    · rw [show e + (e - sl) * p.rr_ratio - e = (e - sl) * p.rr_ratio by ring,
        abs_mul, abs_of_pos hrr, mul_comm]
    · have := mul_pos (sub_pos.mpr h) hrr
      linarith
    · have := mul_neg_of_neg_of_pos (sub_neg.mpr h) hrr
      linarith
    · rw [abs_of_nonneg (sub_nonneg.mpr h)]
      ring
  · unfold calculate_take_profit at htp
    rw [if_neg (by decide), if_pos rfl] at htp
    injection htp with htp
    subst htp
    refine ⟨?_, fun h => ?_, fun h => ?_, fun h => absurd h (by decide), fun _ h => ?_⟩
    · rw [show e - (sl - e) * p.rr_ratio - e = -((sl - e) * p.rr_ratio) by ring,
        abs_neg, abs_mul, abs_of_pos hrr, abs_sub_comm, mul_comm]
    · have := mul_neg_of_neg_of_pos (sub_neg.mpr h) hrr
      linarith
    · have := mul_pos (sub_pos.mpr h) hrr
      linarith
    · rw [abs_of_nonpos (sub_nonpos.mpr h)]
      ring

/-- Witness for C4 amended: entry 100, stop 98, long, default
`rr_ratio = 3`, take-profit 106. -/
theorem take_profit_relation_amended_witness :
    |(106 : ℚ) - 100| = defaultParams.rr_ratio * |100 - 98| :=
  (take_profit_relation_amended defaultParams 100 98 106 "long" (by decide)
    (Or.inl rfl) (by with_unfolding_all rfl)).1

/-! ### C7 -/

/-- C7: at an interior index (both neighbours in range) the demand-zone
classifier returns true exactly when the strict swing-low condition holds on
both sides and the volume strictly exceeds
`avg_volume * volume_threshold`. -/
theorem demand_zone_characterization (p : Params) (s : Series) (i : ℕ)
    (hWf : s.Wf) (h1 : 1 ≤ i) (h2 : i + 1 < s.len) :
    is_demand_zone p s (i : ℤ) = .ok true ↔
      (s.lows.getD i 0 < s.lows.getD (i - 1) 0 ∧
       s.lows.getD i 0 < s.lows.getD (i + 1) 0 ∧
       s.volumes.getD i 0 > s.avg_volume.getD i 0 * p.volume_threshold) := by
  obtain ⟨-, -, hlow, hvol, hav, -⟩ := hWf
  have e1 : pyGet s.lows (i : ℤ) = .ok (s.lows.getD i 0) :=
    pyGet_coe _ _ (by omega)
  have e2 : pyGet s.lows ((i : ℤ) - 1) = .ok (s.lows.getD (i - 1) 0) := by
    rw [show (i : ℤ) - 1 = ((i - 1 : ℕ) : ℤ) by omega]
    exact pyGet_coe _ _ (by omega)
  have e3 : pyGet s.lows ((i : ℤ) + 1) = .ok (s.lows.getD (i + 1) 0) := by
    rw [show (i : ℤ) + 1 = ((i + 1 : ℕ) : ℤ) by omega]
    exact pyGet_coe _ _ (by omega)
  have e4 : pyGet s.volumes (i : ℤ) = .ok (s.volumes.getD i 0) :=
    pyGet_coe _ _ (by omega)
  have e5 : pyGet s.avg_volume (i : ℤ) = .ok (s.avg_volume.getD i 0) :=
    pyGet_coe _ _ (by omega)
  unfold is_demand_zone
  simp only [e1, e2, e3, e4, e5]
  split_ifs with hA hB hC <;> simp_all

/-- Witness for C7 on `sEmit` at the interior index 2. -/
theorem demand_zone_characterization_witness :
    is_demand_zone defaultParams sEmit (2 : ℤ) = .ok true := by
  refine (demand_zone_characterization defaultParams sEmit 2 (by decide) (by decide)
    (by decide)).mpr ⟨?_, ?_, ?_⟩ <;> with_unfolding_all rfl

/-! ### C6 -/

/-- C6 counterexample: on the two-bar series `sTwo` (lows `[5, 3]`) the
zone query at the last index raises an index error — it reads one past the
end of the series — instead of returning none/false. -/
theorem boundary_query_counterexample :
    is_demand_zone defaultParams sTwo 1 = .error () := by
  with_unfolding_all rfl

/-- C6 amended: classification queries are not boundary-guarded.  At the
last index the demand-zone query raises exactly when its first swing
comparison holds, and otherwise returns false; at index 0 the left-neighbour
read wraps around to the last bar by Python negative indexing, so the query
completes with an ordinary boolean rather than yielding none. -/
theorem boundary_query_amended (p : Params) (s : Series) (hWf : s.Wf)
    (h2 : 2 ≤ s.len) :
    (s.lows.getD (s.len - 1) 0 < s.lows.getD (s.len - 2) 0 →
      is_demand_zone p s ((s.len : ℤ) - 1) = .error ()) ∧
    (¬ s.lows.getD (s.len - 1) 0 < s.lows.getD (s.len - 2) 0 →
      is_demand_zone p s ((s.len : ℤ) - 1) = .ok false) ∧
    (∃ b, is_demand_zone p s 0 = .ok b) := by
  obtain ⟨-, -, hlow, hvol, hav, -⟩ := hWf
  have e1 : pyGet s.lows ((s.len : ℤ) - 1) = .ok (s.lows.getD (s.len - 1) 0) := by
    rw [show (s.len : ℤ) - 1 = ((s.len - 1 : ℕ) : ℤ) by omega]
    exact pyGet_coe _ _ (by omega)
  have e2 : pyGet s.lows ((s.len : ℤ) - 1 - 1) = .ok (s.lows.getD (s.len - 2) 0) := by
    rw [show (s.len : ℤ) - 1 - 1 = ((s.len - 2 : ℕ) : ℤ) by omega]
    exact pyGet_coe _ _ (by omega)
  have e3 : pyGet s.lows ((s.len : ℤ) - 1 + 1) = .error () := by
    rw [show (s.len : ℤ) - 1 + 1 = (s.len : ℤ) by ring]
    exact pyGet_err_of_ge _ _ (by omega)
  refine ⟨fun h => ?_, fun h => ?_, ?_⟩
  · unfold is_demand_zone
    simp only [e1, e2, e3]
    rw [if_pos h]
  · unfold is_demand_zone
    simp only [e1, e2]
    rw [if_neg h]
  · obtain ⟨l0, f1⟩ := pyGet_ok_of_lt s.lows 0 (by omega) (by omega)
    obtain ⟨lm, f2⟩ := pyGet_ok_of_lt s.lows (0 - 1) (by omega) (by omega)
    obtain ⟨lp, f3⟩ := pyGet_ok_of_lt s.lows (0 + 1) (by omega) (by omega)
    obtain ⟨v, f4⟩ := pyGet_ok_of_lt s.volumes 0 (by omega) (by omega)
    obtain ⟨av, f5⟩ := pyGet_ok_of_lt s.avg_volume 0 (by omega) (by omega)
    unfold is_demand_zone
    simp only [f1, f2, f3, f4, f5]
    split_ifs <;> exact ⟨_, rfl⟩

/-- Witness for C6 amended: on `sTwo` the last-index query raises. -/
theorem boundary_query_amended_witness :
    is_demand_zone defaultParams sTwo ((sTwo.len : ℤ) - 1) = .error () :=
  (boundary_query_amended defaultParams sTwo (by decide) (by decide)).1
    (by with_unfolding_all rfl)

/-! ### Lemmas about the stop-loss scans -/

theorem slScanLong_first (p : Params) (s : Series) (e : ℚ) :
    ∀ (l : List ℤ) (i : ℤ) (v : ℚ),
      List.Pairwise (· < ·) l → i ∈ l →
      is_demand_zone p s i = .ok true → pyGet s.lows i = .ok v → v < e →
      (∀ j ∈ l, j < i →
        ∃ b, is_demand_zone p s j = .ok b ∧
          (b = true → ∃ w, pyGet s.lows j = .ok w ∧ ¬ w < e)) →
      slScanLong p s e l = .ok (some (v * p.stop_loss_buffer)) := by
  intro l
  induction l with
  | nil => intro i v _ hmem; exact absurd hmem (List.not_mem_nil i)
  | cons a t ih =>
    intro i v hpw hmem hdz hv hvlt hbefore
    rw [List.pairwise_cons] at hpw
    obtain ⟨hat, hpwt⟩ := hpw
    rcases List.mem_cons.mp hmem with rfl | hmem
    · unfold slScanLong
      simp only [hdz, hv]
      rw [if_pos hvlt]
    · obtain ⟨b, hb, hbw⟩ := hbefore a (by simp) (hat i hmem)
      unfold slScanLong
      cases b with
      | false =>
        simp only [hb]
        exact ih i v hpwt hmem hdz hv hvlt fun j hj hji => hbefore j (by simp [hj]) hji
      | true =>
        obtain ⟨w, hw, hnw⟩ := hbw rfl
        simp only [hb, hw]
        rw [if_neg hnw]
        exact ih i v hpwt hmem hdz hv hvlt fun j hj hji => hbefore j (by simp [hj]) hji

theorem slScanLong_none (p : Params) (s : Series) (e : ℚ) :
    ∀ l : List ℤ,
      (∀ j ∈ l, ∃ b, is_demand_zone p s j = .ok b ∧
        (b = true → ∃ w, pyGet s.lows j = .ok w ∧ ¬ w < e)) →
      slScanLong p s e l = .ok none := by
  intro l
  induction l with
  | nil => intro _; rfl
  | cons a t ih =>
    intro h
    obtain ⟨b, hb, hbw⟩ := h a (by simp)
    unfold slScanLong
    cases b with
    | false =>
      simp only [hb]
      exact ih fun j hj => h j (by simp [hj])
    | true =>
      obtain ⟨w, hw, hnw⟩ := hbw rfl
      simp only [hb, hw]
      rw [if_neg hnw]
      exact ih fun j hj => h j (by simp [hj])

theorem slScanLong_some (p : Params) (s : Series) (e : ℚ) :
    ∀ (l : List ℤ) (r : ℚ), slScanLong p s e l = .ok (some r) →
      ∃ v, v ∈ s.lows ∧ v < e ∧ r = v * p.stop_loss_buffer := by
  intro l
  induction l with
  | nil => intro r h; exact absurd h (by simp [slScanLong])
  | cons a t ih =>
    intro r h
    unfold slScanLong at h
    cases hdz : is_demand_zone p s a with
    | error u =>
      simp only [hdz] at h
      exact Except.noConfusion h
    | ok b =>
      cases b with
      | false =>
        simp only [hdz] at h
        exact ih r h
      | true =>
        simp only [hdz] at h
        cases hg : pyGet s.lows a with
        | error u =>
          simp only [hg] at h
          exact Except.noConfusion h
        | ok v =>
          simp only [hg] at h
          by_cases hlt : v < e
          · rw [if_pos hlt] at h
            simp only [Except.ok.injEq, Option.some.injEq] at h
            exact ⟨v, pyGet_mem s.lows a v hg, hlt, h.symm⟩
          · rw [if_neg hlt] at h
            exact ih r h

theorem slScanShort_first (p : Params) (s : Series) (e : ℚ) :
    ∀ (l : List ℤ) (i : ℤ) (v : ℚ),
      List.Pairwise (· < ·) l → i ∈ l →
      is_supply_zone p s i = .ok true → pyGet s.highs i = .ok v → v > e →
      (∀ j ∈ l, j < i →
        ∃ b, is_supply_zone p s j = .ok b ∧
          (b = true → ∃ w, pyGet s.highs j = .ok w ∧ ¬ w > e)) →
      slScanShort p s e l = .ok (some (v * (2 - p.stop_loss_buffer))) := by
  intro l
  induction l with
  | nil => intro i v _ hmem; exact absurd hmem (List.not_mem_nil i)
  | cons a t ih =>
    intro i v hpw hmem hsz hv hvgt hbefore
    rw [List.pairwise_cons] at hpw
    obtain ⟨hat, hpwt⟩ := hpw
    rcases List.mem_cons.mp hmem with rfl | hmem
    · unfold slScanShort
      simp only [hsz, hv]
      rw [if_pos hvgt]
    · obtain ⟨b, hb, hbw⟩ := hbefore a (by simp) (hat i hmem)
      unfold slScanShort
      cases b with
      | false =>
        simp only [hb]
        exact ih i v hpwt hmem hsz hv hvgt fun j hj hji => hbefore j (by simp [hj]) hji
      | true =>
        obtain ⟨w, hw, hnw⟩ := hbw rfl
        simp only [hb, hw]
        rw [if_neg hnw]
        exact ih i v hpwt hmem hsz hv hvgt fun j hj hji => hbefore j (by simp [hj]) hji

theorem slScanShort_none (p : Params) (s : Series) (e : ℚ) :
    ∀ l : List ℤ,
      (∀ j ∈ l, ∃ b, is_supply_zone p s j = .ok b ∧
        (b = true → ∃ w, pyGet s.highs j = .ok w ∧ ¬ w > e)) →
      slScanShort p s e l = .ok none := by
  intro l
  induction l with
  | nil => intro _; rfl
  | cons a t ih =>
    intro h
    obtain ⟨b, hb, hbw⟩ := h a (by simp)
    unfold slScanShort
    cases b with
    | false =>
      simp only [hb]
      exact ih fun j hj => h j (by simp [hj])
    | true =>
      obtain ⟨w, hw, hnw⟩ := hbw rfl
      simp only [hb, hw]
      rw [if_neg hnw]
      exact ih fun j hj => h j (by simp [hj])

theorem slScanShort_some (p : Params) (s : Series) (e : ℚ) :
    ∀ (l : List ℤ) (r : ℚ), slScanShort p s e l = .ok (some r) →
      ∃ v, v ∈ s.highs ∧ e < v ∧ r = v * (2 - p.stop_loss_buffer) := by
  intro l
  induction l with
  | nil => intro r h; exact absurd h (by simp [slScanShort])
  | cons a t ih =>
    intro r h
    unfold slScanShort at h
    cases hsz : is_supply_zone p s a with
    | error u =>
      simp only [hsz] at h
      exact Except.noConfusion h
    | ok b =>
      cases b with
      | false =>
        simp only [hsz] at h
        exact ih r h
      | true =>
        simp only [hsz] at h
        cases hg : pyGet s.highs a with
        | error u =>
          simp only [hg] at h
          exact Except.noConfusion h
        | ok v =>
          simp only [hg] at h
          by_cases hgt : v > e
          · rw [if_pos hgt] at h
            simp only [Except.ok.injEq, Option.some.injEq] at h
            exact ⟨v, pyGet_mem s.highs a v hg, hgt, h.symm⟩
          · rw [if_neg hgt] at h
            exact ih r h

/-! ### C8 -/

/-- C8 counterexample: on `sDecr` (lows `[3, 2, 1]`, no demand zone
anywhere) the long stop-loss query for entry 100 raises an index error at
the last index instead of returning the claimed fallback
`entry * 0.98 = 98`. -/
theorem stop_loss_scan_counterexample :
    calculate_stop_loss defaultParams sDecr 100 "long" = .error () := by
  with_unfolding_all rfl

/-- C8 amended: the stop-loss scan runs over indices `0 .. len-1` in
ascending order, index 0 comparing against the wrapped last bar.  For long
it returns `zone-low * stop_loss_buffer` at the first index that is a
demand zone with zone-low < entry, provided every earlier query completed
without qualifying; if every index completes without qualifying — which at
the last index requires its first swing comparison to fail, since otherwise
the query raises instead of falling back — the fallback `entry * 0.98` is
returned (symmetrically `zone-high * (2 - stop_loss_buffer)` and
`entry * 1.02` for short). -/
theorem stop_loss_scan_amended (p : Params) (s : Series) (e : ℚ) :
    (∀ i ∈ pyRange 0 s.len, ∀ v,
      (∀ j ∈ pyRange 0 s.len, j < i →
        ∃ b, is_demand_zone p s j = .ok b ∧
          (b = true → ∃ w, pyGet s.lows j = .ok w ∧ ¬ w < e)) →
      is_demand_zone p s i = .ok true → pyGet s.lows i = .ok v → v < e →
      calculate_stop_loss p s e "long" = .ok (v * p.stop_loss_buffer)) ∧
    ((∀ j ∈ pyRange 0 s.len,
        ∃ b, is_demand_zone p s j = .ok b ∧
          (b = true → ∃ w, pyGet s.lows j = .ok w ∧ ¬ w < e)) →
      calculate_stop_loss p s e "long" = .ok (e * 0.98)) ∧
    (∀ i ∈ pyRange 0 s.len, ∀ v,
      (∀ j ∈ pyRange 0 s.len, j < i →
        ∃ b, is_supply_zone p s j = .ok b ∧
          (b = true → ∃ w, pyGet s.highs j = .ok w ∧ ¬ w > e)) →
      is_supply_zone p s i = .ok true → pyGet s.highs i = .ok v → v > e →
      calculate_stop_loss p s e "short" = .ok (v * (2 - p.stop_loss_buffer))) ∧
    ((∀ j ∈ pyRange 0 s.len,
        ∃ b, is_supply_zone p s j = .ok b ∧
          (b = true → ∃ w, pyGet s.highs j = .ok w ∧ ¬ w > e)) →
      calculate_stop_loss p s e "short" = .ok (e * 1.02)) := by
  refine ⟨fun i hi v hbefore hdz hv hvlt => ?_, fun hall => ?_,
    fun i hi v hbefore hsz hv hvgt => ?_, fun hall => ?_⟩
  · unfold calculate_stop_loss
    rw [if_pos rfl,
      slScanLong_first p s e (pyRange 0 s.len) i v (pyRange_pairwise 0 s.len)
        hi hdz hv hvlt hbefore]
  · unfold calculate_stop_loss
    rw [if_pos rfl, slScanLong_none p s e (pyRange 0 s.len) hall]
  · unfold calculate_stop_loss
    rw [if_neg (by decide), if_pos rfl,
      slScanShort_first p s e (pyRange 0 s.len) i v (pyRange_pairwise 0 s.len)
        hi hsz hv hvgt hbefore]
  · unfold calculate_stop_loss
    rw [if_neg (by decide), if_pos rfl, slScanShort_none p s e (pyRange 0 s.len) hall]

/-- Witness for C8 amended on `sEmit`: entry 10 finds the demand zone at
index 2 (low 1) and the stop is `1 * stop_loss_buffer`. -/
theorem stop_loss_scan_amended_witness :
    calculate_stop_loss defaultParams sEmit 10 "long" =
      .ok (1 * defaultParams.stop_loss_buffer) :=
  (stop_loss_scan_amended defaultParams sEmit 10).1 2 (by decide) 1
    (by
      intro j hj hji
      rw [mem_pyRange] at hj
      have hj01 : j = 0 ∨ j = 1 := by omega
      rcases hj01 with rfl | rfl
      · exact ⟨false, by with_unfolding_all rfl, by simp⟩
      · exact ⟨false, by with_unfolding_all rfl, by simp⟩)
    (by with_unfolding_all rfl) (by with_unfolding_all rfl) (by with_unfolding_all rfl)

/-! ### C2 -/

/-- C2 counterexample: in ATR mode with `atr_value = 0` — allowed by the
indicator contract ATR ≥ 0 — the stop collapses onto the entry: for entry
100 the computed long stop-loss is 100, so stop < entry fails. -/
theorem risk_ordering_counterexample :
    calculate_atr_stop_loss defaultParams 100 "long" 0 = some 100 ∧
    ¬ (100 : ℚ) < 100 :=
  ⟨by with_unfolding_all rfl, lt_irrefl 100⟩

/-- C2 amended: the ordering invariant holds on positive prices.  In RR
mode, for entry > 0, `stop_loss_buffer ≤ 1`, `rr_ratio > 0` and nonnegative
bar lows, every returned stop/target pair satisfies stop < entry < target
(long) and target < entry < stop (short).  In ATR mode the same holds
provided the applied distance `atr_value * atr_multiplier` is positive —
with ATR = 0 both stop and target collapse onto the entry. -/
theorem risk_ordering_amended (p : Params) (s : Series) (e : ℚ)
    (he : 0 < e) (hb : p.stop_loss_buffer ≤ 1) (hrr : 0 < p.rr_ratio)
    (hlows : ∀ v ∈ s.lows, 0 ≤ v) :
    (∀ sl, calculate_stop_loss p s e "long" = .ok sl →
      sl < e ∧ ∀ tp, calculate_take_profit p e sl "long" = some tp → e < tp) ∧
    (∀ sl, calculate_stop_loss p s e "short" = .ok sl →
      e < sl ∧ ∀ tp, calculate_take_profit p e sl "short" = some tp → tp < e) ∧
    (∀ a sl tp, 0 < a * p.atr_multiplier →
      calculate_atr_stop_loss p e "long" a = some sl →
      calculate_atr_take_profit p e "long" a = some tp →
      sl < e ∧ e < tp) ∧
    (∀ a sl tp, 0 < a * p.atr_multiplier →
      calculate_atr_stop_loss p e "short" a = some sl →
      calculate_atr_take_profit p e "short" a = some tp →
      tp < e ∧ e < sl) := by
  have hsl_long : ∀ sl, calculate_stop_loss p s e "long" = .ok sl → sl < e := by
    intro sl h
    unfold calculate_stop_loss at h
    rw [if_pos rfl] at h
    cases hscan : slScanLong p s e (pyRange 0 s.len) with
    | error u =>
      simp only [hscan] at h
      exact Except.noConfusion h
    | ok o =>
      cases o with
      | some r =>
        simp only [hscan, Except.ok.injEq] at h
        obtain ⟨v, hvmem, hvlt, hr⟩ := slScanLong_some p s e _ r hscan
        have hv0 : 0 ≤ v := hlows v hvmem
        calc sl = v * p.stop_loss_buffer := by rw [← h, hr]
        _ ≤ v * 1 := mul_le_mul_of_nonneg_left hb hv0
        _ = v := mul_one v
        _ < e := hvlt
      | none =>
        simp only [hscan, Except.ok.injEq] at h
        subst h
        have h98 := mul_lt_mul_of_pos_left (show (0.98 : ℚ) < 1 by norm_num) he
        simpa using h98
  have htp_long : ∀ sl, sl < e →
      ∀ tp, calculate_take_profit p e sl "long" = some tp → e < tp := by
    intro sl hsl tp h
    unfold calculate_take_profit at h
    rw [if_pos rfl] at h
    injection h with h
    subst h
    have := mul_pos (sub_pos.mpr hsl) hrr
    linarith
  have hsl_short : ∀ sl, calculate_stop_loss p s e "short" = .ok sl → e < sl := by
    intro sl h
    unfold calculate_stop_loss at h
    rw [if_neg (by decide), if_pos rfl] at h
    cases hscan : slScanShort p s e (pyRange 0 s.len) with
    | error u =>
      simp only [hscan] at h
      exact Except.noConfusion h
    | ok o =>
      cases o with
      | some r =>
        simp only [hscan, Except.ok.injEq] at h
        obtain ⟨v, hvmem, hvgt, hr⟩ := slScanShort_some p s e _ r hscan
        have hv0 : 0 < v := lt_trans he hvgt
        calc e < v := hvgt
        _ = v * 1 := (mul_one v).symm
        _ ≤ v * (2 - p.stop_loss_buffer) :=
          mul_le_mul_of_nonneg_left (by linarith) (le_of_lt hv0)
        _ = sl := by rw [← hr, h]
      | none =>
        simp only [hscan, Except.ok.injEq] at h
        subst h
        have h102 := mul_lt_mul_of_pos_left (show (1 : ℚ) < 1.02 by norm_num) he
        simpa using h102
  have htp_short : ∀ sl, e < sl →
      ∀ tp, calculate_take_profit p e sl "short" = some tp → tp < e := by
    intro sl hsl tp h
    unfold calculate_take_profit at h
    rw [if_neg (by decide), if_pos rfl] at h
    injection h with h
    subst h
    have := mul_pos (sub_pos.mpr hsl) hrr
    linarith
  refine ⟨fun sl h => ⟨hsl_long sl h, htp_long sl (hsl_long sl h)⟩,
    fun sl h => ⟨hsl_short sl h, htp_short sl (hsl_short sl h)⟩,
    fun a sl tp ha h1 h2 => ?_, fun a sl tp ha h1 h2 => ?_⟩
  · unfold calculate_atr_stop_loss at h1
    unfold calculate_atr_take_profit at h2
    rw [if_pos rfl] at h1 h2
    injection h1 with h1
    injection h2 with h2
    subst h1
    subst h2
    have := mul_pos ha hrr
    constructor <;> linarith
  · unfold calculate_atr_stop_loss at h1
    unfold calculate_atr_take_profit at h2
    rw [if_neg (by decide), if_pos rfl] at h1 h2
    injection h1 with h1
    injection h2 with h2
    subst h1
    subst h2
    have := mul_pos ha hrr
    constructor <;> linarith

/-- Witness for C2 amended on `sEmit` with entry 10: the returned long stop
`0.995` is below the entry. -/
theorem risk_ordering_amended_witness : (0.995 : ℚ) < 10 :=
  ((risk_ordering_amended defaultParams sEmit 10 (by with_unfolding_all rfl)
    (by with_unfolding_all rfl) (by with_unfolding_all rfl)
    (by
      intro v hv
      fin_cases hv <;> with_unfolding_all rfl)).1
    0.995 (by with_unfolding_all rfl)).1

/-! ### Totality of the classifiers on in-range indices -/

theorem is_engulfing_pattern_ok (s : Series) (i : ℤ) (hWf : s.Wf)
    (h0 : 0 ≤ i) (h1 : i < (s.len : ℤ)) :
    ∃ r, is_engulfing_pattern s i = .ok r := by
  obtain ⟨hop, -, -, -, -, -⟩ := hWf
  have hcl : s.closes.length = s.len := rfl
  obtain ⟨c, hc⟩ := pyGet_ok_of_lt s.closes i (by omega) (by omega)
  obtain ⟨om, hom⟩ := pyGet_ok_of_lt s.opens (i - 1) (by omega) (by omega)
  obtain ⟨o, ho⟩ := pyGet_ok_of_lt s.opens i (by omega) (by omega)
  obtain ⟨cm, hcm⟩ := pyGet_ok_of_lt s.closes (i - 1) (by omega) (by omega)
  unfold is_engulfing_pattern
  simp only [hc, hom, ho, hcm]
  split_ifs <;> exact ⟨_, rfl⟩

theorem is_demand_zone_ok (p : Params) (s : Series) (i : ℤ) (hWf : s.Wf)
    (h0 : 0 ≤ i) (h1 : i + 1 < (s.len : ℤ)) :
    ∃ b, is_demand_zone p s i = .ok b := by
  obtain ⟨-, -, hlo, hvo, hav, -⟩ := hWf
  obtain ⟨l0, e1⟩ := pyGet_ok_of_lt s.lows i (by omega) (by omega)
  obtain ⟨lm, e2⟩ := pyGet_ok_of_lt s.lows (i - 1) (by omega) (by omega)
  obtain ⟨lp, e3⟩ := pyGet_ok_of_lt s.lows (i + 1) (by omega) (by omega)
  obtain ⟨v, e4⟩ := pyGet_ok_of_lt s.volumes i (by omega) (by omega)
  obtain ⟨av, e5⟩ := pyGet_ok_of_lt s.avg_volume i (by omega) (by omega)
  unfold is_demand_zone
  simp only [e1, e2, e3, e4, e5]
  split_ifs <;> exact ⟨_, rfl⟩

theorem is_supply_zone_ok (p : Params) (s : Series) (i : ℤ) (hWf : s.Wf)
    (h0 : 0 ≤ i) (h1 : i + 1 < (s.len : ℤ)) :
    ∃ b, is_supply_zone p s i = .ok b := by
  obtain ⟨-, hhi, -, hvo, hav, -⟩ := hWf
  obtain ⟨h0v, e1⟩ := pyGet_ok_of_lt s.highs i (by omega) (by omega)
  obtain ⟨hm, e2⟩ := pyGet_ok_of_lt s.highs (i - 1) (by omega) (by omega)
  obtain ⟨hp, e3⟩ := pyGet_ok_of_lt s.highs (i + 1) (by omega) (by omega)
  obtain ⟨v, e4⟩ := pyGet_ok_of_lt s.volumes i (by omega) (by omega)
  obtain ⟨av, e5⟩ := pyGet_ok_of_lt s.avg_volume i (by omega) (by omega)
  unfold is_supply_zone
  simp only [e1, e2, e3, e4, e5]
  split_ifs <;> exact ⟨_, rfl⟩

theorem is_fair_value_gap_ok (p : Params) (s : Series) (i : ℤ) (hWf : s.Wf)
    (h0 : 0 ≤ i) (h1 : i < (s.len : ℤ)) :
    ∃ b, is_fair_value_gap p s i = .ok b := by
  obtain ⟨hop, -, -, -, -, -⟩ := hWf
  have hcl : s.closes.length = s.len := rfl
  obtain ⟨c, hc⟩ := pyGet_ok_of_lt s.closes i (by omega) (by omega)
  obtain ⟨om, hom⟩ := pyGet_ok_of_lt s.opens (i - 1) (by omega) (by omega)
  unfold is_fair_value_gap
  simp only [hc, hom]
  split_ifs <;> exact ⟨_, rfl⟩

/-! ### The scan condition and the scan loop -/

theorem signal_at_of_long (p : Params) (s : Series) (i : ℤ)
    (hL : LongSignal p s i) : signal_at p s i = .ok (some "long") := by
  obtain ⟨he, hd, hm, hf⟩ := hL
  unfold signal_at
  simp [he, hd, hm, hf]

theorem signal_at_of_short (p : Params) (s : Series) (i : ℤ)
    (hS : ShortSignal p s i) : signal_at p s i = .ok (some "short") := by
  obtain ⟨he, hs, hm, hf⟩ := hS
  unfold signal_at
  simp [he, hs, hm, hf]

theorem signal_at_of_none (p : Params) (s : Series) (i : ℤ) (hWf : s.Wf)
    (h0 : 0 ≤ i) (h1 : i + 1 < (s.len : ℤ))
    (hnL : ¬ LongSignal p s i) (hnS : ¬ ShortSignal p s i) :
    signal_at p s i = .ok none := by
  obtain ⟨et, he⟩ := is_engulfing_pattern_ok s i hWf h0 (by omega)
  unfold signal_at
  simp only [he]
  by_cases hbu : et = some "bullish"
  · subst hbu
    rw [if_pos rfl]
    obtain ⟨dz, hd⟩ := is_demand_zone_ok p s i hWf h0 h1
    obtain ⟨fv, hf⟩ := is_fair_value_gap_ok p s i hWf h0 (by omega)
    cases dz with
    | false => simp [hd]
    | true =>
      cases hm : is_bullish_momentum s with
      | false => simp [hd, hm]
      | true =>
        cases fv with
        | false => simp [hd, hm, hf]
        | true => exact absurd ⟨he, hd, hm, hf⟩ hnL
  · rw [if_neg hbu]
    by_cases hbe : et = some "bearish"
    · subst hbe
      rw [if_pos rfl]
      obtain ⟨sz, hs⟩ := is_supply_zone_ok p s i hWf h0 h1
      obtain ⟨fv, hf⟩ := is_fair_value_gap_ok p s i hWf h0 (by omega)
      cases sz with
      | false => simp [hs]
      | true =>
        cases hm : is_bearish_momentum s with
        | false => simp [hs, hm]
        | true =>
          cases fv with
          | false => simp [hs, hm, hf]
          | true => exact absurd ⟨he, hs, hm, hf⟩ hnS
    · rw [if_neg hbe]

theorem scanLoop_none (p : Params) (s : Series) :
    ∀ l : List ℤ, (∀ i ∈ l, signal_at p s i = .ok none) →
      scanLoop p s l = .ok none := by
  intro l
  induction l with
  | nil => intro _; rfl
  | cons a t ih =>
    intro h
    unfold scanLoop
    simp only [h a (by simp)]
    exact ih fun j hj => h j (by simp [hj])

theorem scanLoop_first (p : Params) (s : Series) :
    ∀ (l : List ℤ) (i : ℤ) (dir : String),
      List.Pairwise (· < ·) l → i ∈ l →
      signal_at p s i = .ok (some dir) →
      (∀ j ∈ l, j < i → signal_at p s j = .ok none) →
      scanLoop p s l = .ok (some (dir, i)) := by
  intro l
  induction l with
  | nil => intro i dir _ hmem; exact absurd hmem (List.not_mem_nil i)
  | cons a t ih =>
    intro i dir hpw hmem hsig hbefore
    rw [List.pairwise_cons] at hpw
    obtain ⟨hat, hpwt⟩ := hpw
    rcases List.mem_cons.mp hmem with rfl | hmem
    · unfold scanLoop
      simp only [hsig]
    · unfold scanLoop
      simp only [hbefore a (by simp) (hat i hmem)]
      exact ih i dir hpwt hmem hsig fun j hj hji => hbefore j (by simp [hj]) hji

theorem enter_trade_some (p : Params) (s : Series) (dir : String) (i : ℤ)
    (r : Option TradeIntent) (hdir : dir = "long" ∨ dir = "short")
    (h : enter_trade p s dir i = .ok r) : ∃ t, r = some t := by
  unfold enter_trade at h
  cases hc : pyGet s.closes i with
  | error u =>
    simp only [hc] at h
    exact Except.noConfusion h
  | ok entry =>
    simp only [hc] at h
    by_cases hatr : p.use_atr
    · rw [if_pos hatr] at h
      cases ha : pyGet s.atr i with
      | error u =>
        simp only [ha] at h
        exact Except.noConfusion h
      | ok av =>
        simp only [ha] at h
        unfold mkIntent at h
        rcases hdir with rfl | rfl
        · rw [if_pos rfl] at h
          injection h with h
          exact ⟨_, h.symm⟩
        · rw [if_neg (by decide), if_pos rfl] at h
          injection h with h
          exact ⟨_, h.symm⟩
    · rw [if_neg hatr] at h
      cases hsl : calculate_stop_loss p s entry dir with
      | error u =>
        simp only [hsl] at h
        exact Except.noConfusion h
      | ok sl =>
        simp only [hsl] at h
        unfold mkIntent at h
        rcases hdir with rfl | rfl
        · rw [if_pos rfl] at h
          injection h with h
          exact ⟨_, h.symm⟩
        · rw [if_neg (by decide), if_pos rfl] at h
          injection h with h
          exact ⟨_, h.symm⟩

/-! ### C5 -/

/-- C5 counterexample: on `sCrash` the Session Gate admits the bar, no
trade has yet been taken, and all four predicates hold at index 2, the
first scanned index — yet `next` emits nothing and sets no state:
`enter_trade` raises an index error inside the stop-loss scan and the
exception propagates out of `next`. -/
theorem scan_emission_counterexample :
    is_within_trading_hours defaultParams sCrash.localTime = true ∧
    LongSignal defaultParams sCrash 2 ∧
    next defaultParams sCrash ⟨none⟩ = .error () := by
  exact ⟨by with_unfolding_all rfl,
    ⟨by with_unfolding_all rfl, by with_unfolding_all rfl,
     by with_unfolding_all rfl, by with_unfolding_all rfl⟩,
    by with_unfolding_all rfl⟩

/-- C5 amended: when the Session Gate admits the bar and no trade has yet
been taken that day, `next` scans the indices `engulfing_lookback .. len-2`
(Python `range(engulfing_lookback, len - 1)`) in ascending order.  If no
index satisfies all four predicates of a direction, no intent is emitted
and the state is unchanged.  At the first index satisfying all four,
`enter_trade` runs; provided it returns — the RR-mode stop-loss scan inside
it can instead raise, see the counterexample — exactly one intent is
emitted and `last_trade_date` is set to the bar date. -/
theorem scan_first_match_amended (p : Params) (s : Series) (st : StratState)
    (hWf : s.Wf)
    (hGate : is_within_trading_hours p s.localTime = true)
    (hNew : ¬ st.last_trade_date = some s.date) :
    ((∀ i ∈ pyRange p.engulfing_lookback (s.len - 1),
        ¬ LongSignal p s i ∧ ¬ ShortSignal p s i) →
      next p s st = .ok (none, st)) ∧
    (∀ i ∈ pyRange p.engulfing_lookback (s.len - 1), ∀ r,
      (∀ j ∈ pyRange p.engulfing_lookback (s.len - 1), j < i →
        ¬ LongSignal p s j ∧ ¬ ShortSignal p s j) →
      LongSignal p s i →
      enter_trade p s "long" i = .ok r →
      ∃ t, r = some t ∧ next p s st = .ok (some t, ⟨some s.date⟩)) ∧
    (∀ i ∈ pyRange p.engulfing_lookback (s.len - 1), ∀ r,
      (∀ j ∈ pyRange p.engulfing_lookback (s.len - 1), j < i →
        ¬ LongSignal p s j ∧ ¬ ShortSignal p s j) →
      ShortSignal p s i →
      enter_trade p s "short" i = .ok r →
      ∃ t, r = some t ∧ next p s st = .ok (some t, ⟨some s.date⟩)) := by
  have hbounds : ∀ i ∈ pyRange p.engulfing_lookback (s.len - 1),
      0 ≤ i ∧ i + 1 < (s.len : ℤ) := by
    intro i hi
    rw [mem_pyRange] at hi
    omega
  refine ⟨fun hnone => ?_, fun i hi r hbefore hL hent => ?_,
    fun i hi r hbefore hS hent => ?_⟩
  · have hscan : scanLoop p s (pyRange p.engulfing_lookback (s.len - 1)) = .ok none := by
      refine scanLoop_none p s _ fun j hj => ?_
      obtain ⟨hj0, hj1⟩ := hbounds j hj
      exact signal_at_of_none p s j hWf hj0 hj1 (hnone j hj).1 (hnone j hj).2
    unfold next
    rw [if_pos hGate, if_neg hNew, hscan]
  · have hscan : scanLoop p s (pyRange p.engulfing_lookback (s.len - 1)) =
        .ok (some ("long", i)) := by
      refine scanLoop_first p s _ i "long" (pyRange_pairwise _ _) hi
        (signal_at_of_long p s i hL) fun j hj hji => ?_
      obtain ⟨hj0, hj1⟩ := hbounds j hj
      exact signal_at_of_none p s j hWf hj0 hj1 (hbefore j hj hji).1 (hbefore j hj hji).2
    obtain ⟨t, ht⟩ := enter_trade_some p s "long" i r (Or.inl rfl) hent
    refine ⟨t, ht, ?_⟩
    unfold next
    rw [if_pos hGate, if_neg hNew]
    simp only [hscan, hent, ht]
  · have hscan : scanLoop p s (pyRange p.engulfing_lookback (s.len - 1)) =
        .ok (some ("short", i)) := by
      refine scanLoop_first p s _ i "short" (pyRange_pairwise _ _) hi
        (signal_at_of_short p s i hS) fun j hj hji => ?_
      obtain ⟨hj0, hj1⟩ := hbounds j hj
      exact signal_at_of_none p s j hWf hj0 hj1 (hbefore j hj hji).1 (hbefore j hj hji).2
    obtain ⟨t, ht⟩ := enter_trade_some p s "short" i r (Or.inr rfl) hent
    refine ⟨t, ht, ?_⟩
    unfold next
    rw [if_pos hGate, if_neg hNew]
    simp only [hscan, hent, ht]

/-- Witness for C5 amended: on `sEmit` the first satisfying index is 2 and
`next` emits `tEmit` while setting the last-trade date. -/
theorem scan_first_match_amended_witness :
    next defaultParams sEmit ⟨none⟩ = .ok (some tEmit, ⟨some 100⟩) := by
  obtain ⟨t, ht, hn⟩ := (scan_first_match_amended defaultParams sEmit ⟨none⟩
    (by decide) (by with_unfolding_all rfl) (by simp)).2.1
    2 (by decide) (some tEmit)
    (by
      intro j hj hji
      rw [mem_pyRange] at hj
      rw [show defaultParams.engulfing_lookback = 2 from rfl,
        show sEmit.len = 5 from rfl] at hj
      omega)
    ⟨by with_unfolding_all rfl, by with_unfolding_all rfl,
     by with_unfolding_all rfl, by with_unfolding_all rfl⟩
    (by with_unfolding_all rfl)
  injection ht with ht
  subst ht
  exact hn

end TradingBot
